import Mathlib

/-!
Shallow embedding of the chunked gated linear-attention (GLA) engine of
`fla/ops/gla/fused_chunk.py` and of the dplr backward state-gradient kernel of
`fla/ops/generalized_delta_rule/dplr/chunk_h_bwd.py`.

Conventions of the embedding:
* All tensors are restricted to a single (sequence, head) slice: the kernels are
  dispatched with one independent program per (batch, head) pair, so every claim
  is a statement about one slice.
* Scalars are `ℚ` (exact arithmetic; the spec's tolerance clause means the
  claims are about exact values), tensors are total functions `ℕ → ℕ → ℚ`
  (flattened time index, then channel index) and the recurrent `K × V` state is
  `ℕ → ℕ → ℚ` (key channel, then value channel).
* The sequence length is `NT * BT` (the public wrapper `fused_chunk_gla` pads
  every input to a multiple of the chunk length `BT = 16` before invoking the
  engine, so the engine itself only ever sees whole chunks).
* The exponential is an abstract parameter `E : ℚ → ℚ`; theorems that need its
  defining algebra take `E (a + b) = E a * E b` and `E 0 = 1` as hypotheses.
  This captures exactly the algebraic facts about `exp` that the chunked
  reformulation relies on.
-/

namespace FusedChunkGLA

/-- Modelled from the spec: `fla.ops.utils.chunk_local_cumsum` is not under
`src/`; §4.1 specifies the chunk-local inclusive cumulative sum
`cumsum[t] = Σ_{t'=chunk_start}^{t} gate[t']`, restarting at the start of each
chunk.  `g` is the raw log-decay tensor, `n` the chunk index, `i` the position
inside the chunk, `c` the key channel. -/
def chunk_local_cumsum (BT : ℕ) (g : ℕ → ℕ → ℚ) (n i c : ℕ) : ℚ :=
  ∑ j ∈ Finset.range (i + 1), g (n * BT + j) c

/-- Modelled from the spec: `fla.ops.utils.op.safe_exp` is not under `src/`;
§4.1 specifies a clamped exponential that "returns exactly zero for arguments
below a large negative threshold rather than propagating `-inf`/NaN".  `θ` is
the (positive) clamp threshold and `E` the abstract exponential. -/
def safe_exp (θ : ℚ) (E : ℚ → ℚ) (x : ℚ) : ℚ :=
  if x < -θ then 0 else E x

/-- Source `prepare_qg_kg` (fused_chunk.py:19-56), query half: each query row is
scaled by `exp` of its chunk-local cumulative decay and by the attention scale
(`b_q *= exp(b_g) * scale`).  `gc` is the already-cumsummed gate tensor the
wrapper passes in, indexed (chunk, local position, channel). -/
def prepare_qg (E : ℚ → ℚ) (scale : ℚ) (BT : ℕ) (q : ℕ → ℕ → ℚ)
    (gc : ℕ → ℕ → ℕ → ℚ) (n i c : ℕ) : ℚ :=
  q (n * BT + i) c * E (gc n i c) * scale

/-- Source `prepare_qg_kg` (fused_chunk.py:19-56), key half: each key row is
scaled by `exp(last_decay - b_g)` where `last_decay` is the cumulative decay at
the final row `BT - 1` of the chunk (`b_k *= exp(last_decay - b_g)`). -/
def prepare_kg (E : ℚ → ℚ) (BT : ℕ) (k : ℕ → ℕ → ℚ)
    (gc : ℕ → ℕ → ℕ → ℚ) (n i c : ℕ) : ℚ :=
  k (n * BT + i) c * E (gc n (BT - 1) c - gc n i c)

/-- Source `fused_chunk_gla_fwd_kernel` (fused_chunk.py:114-176), carried state
`b_h`: starts at the initial state (`0` when none is given), and per chunk is
updated as `b_h = b_h * exp(b_gn)[:, None] + tl.dot(b_k, b_v)` where `b_gn` is
the chunk-total decay (row `BT - 1` of the cumsum) and `b_k` is the key block
the kernel receives, i.e. the decay-scaled `kg`.  `fused_chunk_gla_fwd_h n` is
the state at the START of chunk `n` (the value of `b_h` when chunk `n`'s output
is computed). -/
def fused_chunk_gla_fwd_h (E : ℚ → ℚ) (BT : ℕ) (kg : ℕ → ℕ → ℕ → ℚ)
    (v : ℕ → ℕ → ℚ) (gc : ℕ → ℕ → ℕ → ℚ) (h0 : ℕ → ℕ → ℚ) : ℕ → ℕ → ℕ → ℚ
  | 0 => h0
  | n + 1 => fun c d =>
      fused_chunk_gla_fwd_h E BT kg v gc h0 n c d * E (gc n (BT - 1) c) +
        ∑ i ∈ Finset.range BT, kg n i c * v (n * BT + i) d

/-- Source `fused_chunk_gla_fwd_kernel` (fused_chunk.py:152-167), per-chunk
output: `b_o = tl.dot(b_q, b_h)` computed with the state `b_h` BEFORE the chunk
update, where `b_q` is the query block the kernel receives (the decay-scaled
`qg`).  This is the inter-chunk half of the output. -/
def fused_chunk_gla_fwd_o (E : ℚ → ℚ) (BT K : ℕ) (qg kg : ℕ → ℕ → ℕ → ℚ)
    (v : ℕ → ℕ → ℚ) (gc : ℕ → ℕ → ℕ → ℚ) (h0 : ℕ → ℕ → ℚ) (n i d : ℕ) : ℚ :=
  ∑ c ∈ Finset.range K, qg n i c * fused_chunk_gla_fwd_h E BT kg v gc h0 n c d

/-- Source `fwd_inner_chunk` (fused_chunk.py:276-313): the intra-chunk
interaction matrix.  Row `i` (the outer loop counter), column `j` (`o_i`):
`s = b_q[None,:] * b_k * safe_exp(b_gq[None,:] - b_g)` summed over channels,
then masked with `tl.where(o_i <= i, score, 0)`; `b_q` is pre-multiplied by
`scale`. -/
def fwd_inner_chunk_A (θ : ℚ) (E : ℚ → ℚ) (scale : ℚ) (BT K : ℕ)
    (q k : ℕ → ℕ → ℚ) (gc : ℕ → ℕ → ℕ → ℚ) (n i j : ℕ) : ℚ :=
  if j ≤ i then
    ∑ c ∈ Finset.range K,
      q (n * BT + i) c * scale * k (n * BT + j) c *
        safe_exp θ E (gc n i c - gc n j c)
  else 0

/-- Source `FusedChunkGLAFunction.forward` (fused_chunk.py:369-466): the full
per-position output.  The wrapper computes `g = chunk_local_cumsum(g_org)`,
runs `prepare_qg_kg`, the state-passing kernel and `fwd_inner_chunk`, and
combines the two contributions with `o.add_(o2)` where `o2 = A @ v2`. -/
def fused_chunk_gla_forward_o (θ : ℚ) (E : ℚ → ℚ) (scale : ℚ) (BT K : ℕ)
    (q k v g : ℕ → ℕ → ℚ) (h0 : ℕ → ℕ → ℚ) (n i d : ℕ) : ℚ :=
  fused_chunk_gla_fwd_o E BT K
      (prepare_qg E scale BT q (chunk_local_cumsum BT g))
      (prepare_kg E BT k (chunk_local_cumsum BT g))
      v (chunk_local_cumsum BT g) h0 n i d +
    ∑ j ∈ Finset.range BT,
      fwd_inner_chunk_A θ E scale BT K q k (chunk_local_cumsum BT g) n i j *
        v (n * BT + j) d

/-- Source `FusedChunkGLAFunction.forward` (fused_chunk.py:464):
`ctx.save_for_backward(q, k, v, g_org, A, initial_state)` — the only `K × V`
state tensor retained for the backward pass is the initial state. -/
def fused_chunk_gla_saved_state (h0 : ℕ → ℕ → ℚ) : ℕ → ℕ → ℚ := h0

/-- Source `FusedChunkGLAFunction.forward` (fused_chunk.py:374-375):
`BK = min(K, 64); NK = triton.cdiv(K, BK)` — the number of independent key-
dimension blocks the forward launch is split into (the output is allocated as
`(NK, B, H, T, V)` and summed over the leading axis). -/
def fused_chunk_gla_NK (K : ℕ) : ℕ :=
  (K + min K 64 - 1) / min K 64

/-- Source `fused_chunk_gla_fwd_kernel` launch structure: the partial output
produced by the key-dimension block `b` (program id `i_k`), which owns channels
`[b*BK, min((b+1)*BK, K))` of the state and sums only over those channels. -/
def fused_chunk_gla_fwd_o_block (E : ℚ → ℚ) (BT K BK : ℕ)
    (qg kg : ℕ → ℕ → ℕ → ℚ) (v : ℕ → ℕ → ℚ) (gc : ℕ → ℕ → ℕ → ℚ)
    (h0 : ℕ → ℕ → ℚ) (b n i d : ℕ) : ℚ :=
  ∑ c ∈ Finset.Ico (b * BK) (min ((b + 1) * BK) K),
    qg n i c * fused_chunk_gla_fwd_h E BT kg v gc h0 n c d

/-- Source `triton.next_power_of_2`, used by `chunk_dplr_bwd_dhu`
(chunk_h_bwd.py:124): the least power of two that is `≥ n`. -/
def next_power_of_2 (n : ℕ) : ℕ :=
  2 ^ Nat.clog 2 n

/-- Source `chunk_dplr_bwd_dhu` (chunk_h_bwd.py:124-146) precondition checks:
`assert BK <= 256, "current kernel does not support head dimension being larger
than 256."` with `BK = triton.next_power_of_2(K)`, followed by
`assert NK == 1, 'NK > 1 is not supported ...'` with `NK = triton.cdiv(K, BK)`. -/
def chunk_dplr_bwd_dhu_guard (K : ℕ) : Except String Unit :=
  if next_power_of_2 K ≤ 256 then
    if (K + next_power_of_2 K - 1) / next_power_of_2 K = 1 then Except.ok ()
    else Except.error "NK > 1 is not supported because it involves time-consuming synchronization"
  else Except.error "current kernel does not support head dimension being larger than 256."

/-- Modelled from the spec: the sequential reference recurrence of §8 (it lives
in the test harness, which is out of `src/`): one timestep at a time,
`S_t = S_{t-1} ⊙ exp(gate_t) + key_tᵀ value_t` (the decay multiplies each key
row of the state), so `naive_recurrent_state t` is the state AFTER `t` steps. -/
def naive_recurrent_state (E : ℚ → ℚ) (k v g : ℕ → ℕ → ℚ)
    (h0 : ℕ → ℕ → ℚ) : ℕ → ℕ → ℕ → ℚ
  | 0 => h0
  | t + 1 => fun c d =>
      naive_recurrent_state E k v g h0 t c d * E (g t c) + k t c * v t d

/-- Modelled from the spec: reference output `output_t = scale · query_t · S_t`
where `S_t` is the state of step `t` (its history part decayed through step
`t`). -/
def naive_recurrent_o (E : ℚ → ℚ) (scale : ℚ) (K : ℕ) (q k v g : ℕ → ℕ → ℚ)
    (h0 : ℕ → ℕ → ℚ) (t d : ℕ) : ℚ :=
  scale * ∑ c ∈ Finset.range K,
    q t c * naive_recurrent_state E k v g h0 (t + 1) c d

/-- Modelled from the spec: ungated linear attention (§8, "a degenerate
reference with no decay"): `S_t = S_{t-1} + key_tᵀ value_t`. -/
def linear_attn_state (k v : ℕ → ℕ → ℚ) (h0 : ℕ → ℕ → ℚ) : ℕ → ℕ → ℕ → ℚ
  | 0 => h0
  | t + 1 => fun c d => linear_attn_state k v h0 t c d + k t c * v t d

/-- Modelled from the spec: ungated linear attention output
`output_t = scale · query_t · S_t`. -/
def linear_attn_o (scale : ℚ) (K : ℕ) (q k v : ℕ → ℕ → ℚ)
    (h0 : ℕ → ℕ → ℚ) (t d : ℕ) : ℚ :=
  scale * ∑ c ∈ Finset.range K, q t c * linear_attn_state k v h0 (t + 1) c d

/-- Source `fused_chunk_gla_bwd_kernel`, first loop (fused_chunk.py:203-233):
the replayed forward state, kept transposed (`b_h : [BV, BK]`, indexed value
channel `d` then key channel `c`), initialized from `h0` when an initial state
exists and updated as `b_h = b_h * exp(b_gn)[None, :] + tl.dot(b_v, b_k)`;
`b_k` is the kernel's key argument (the caller passes the decay-scaled `k_g`). -/
def fused_chunk_gla_bwd_h (E : ℚ → ℚ) (BT : ℕ) (kB : ℕ → ℕ → ℕ → ℚ)
    (v : ℕ → ℕ → ℚ) (gc : ℕ → ℕ → ℕ → ℚ) (h0 : ℕ → ℕ → ℚ) : ℕ → ℕ → ℕ → ℚ
  | 0 => fun d c => h0 c d
  | n + 1 => fun d c =>
      fused_chunk_gla_bwd_h E BT kB v gc h0 n d c * E (gc n (BT - 1) c) +
        ∑ i ∈ Finset.range BT, v (n * BT + i) d * kB n i c

/-- Source `fused_chunk_gla_bwd_kernel`, first loop (fused_chunk.py:216-233):
`b_dq += tl.dot(b_do, b_h)` with the pre-update `b_h`, then `b_dq *= scale`. -/
def fused_chunk_gla_bwd_dq (E : ℚ → ℚ) (scale : ℚ) (BT V : ℕ)
    (kB : ℕ → ℕ → ℕ → ℚ) (v dO : ℕ → ℕ → ℚ) (gc : ℕ → ℕ → ℕ → ℚ)
    (h0 : ℕ → ℕ → ℚ) (n i c : ℕ) : ℚ :=
  scale * ∑ d ∈ Finset.range V,
    dO (n * BT + i) d * fused_chunk_gla_bwd_h E BT kB v gc h0 n d c

/-- Source `fused_chunk_gla_bwd_kernel`, second loop (fused_chunk.py:239-273):
the state gradient `b_dh`, initialized with `b_dh = tl.zeros([BK, BV])` (the
kernel has no final-state-gradient input) and iterated over chunks in
DECREASING time order (`i = 1 .. cdiv(T,BT)` addresses chunk `NT - i`):
`b_dh = b_dh * exp(b_db)[:, None] + tl.dot(b_q, b_do)` where `b_db` is the
chunk-total decay and `b_q` the kernel's query argument (the decay-scaled
`q_g`).  `fused_chunk_gla_bwd_dh j` is the value of `b_dh` after `j` chunks
(counted from the end of the sequence) have been processed; chunk `n` is
processed with state `fused_chunk_gla_bwd_dh (NT - 1 - n)`. -/
def fused_chunk_gla_bwd_dh (E : ℚ → ℚ) (BT NT : ℕ) (qB : ℕ → ℕ → ℕ → ℚ)
    (dO : ℕ → ℕ → ℚ) (gc : ℕ → ℕ → ℕ → ℚ) : ℕ → ℕ → ℕ → ℚ
  | 0 => fun _ _ => 0
  | j + 1 => fun c d =>
      fused_chunk_gla_bwd_dh E BT NT qB dO gc j c d *
          E (gc (NT - 1 - j) (BT - 1) c) +
        ∑ i ∈ Finset.range BT,
          qB (NT - 1 - j) i c * dO ((NT - 1 - j) * BT + i) d

/-- Source `fused_chunk_gla_bwd_kernel` (fused_chunk.py:264):
`b_dk = tl.trans(tl.dot(b_dh, tl.trans(b_v)))` for chunk `n`, using the
state gradient before the chunk's update. -/
def fused_chunk_gla_bwd_dk (E : ℚ → ℚ) (BT NT V : ℕ) (qB : ℕ → ℕ → ℕ → ℚ)
    (dO v : ℕ → ℕ → ℚ) (gc : ℕ → ℕ → ℕ → ℚ) (n j c : ℕ) : ℚ :=
  ∑ d ∈ Finset.range V,
    fused_chunk_gla_bwd_dh E BT NT qB dO gc (NT - 1 - n) c d * v (n * BT + j) d

/-- Source `fused_chunk_gla_bwd_kernel` (fused_chunk.py:265):
`b_dv = tl.dot(b_k, b_dh)` for chunk `n` (`b_k` is the decay-scaled key
block), using the state gradient before the chunk's update. -/
def fused_chunk_gla_bwd_dv (E : ℚ → ℚ) (BT NT K : ℕ) (qB kB : ℕ → ℕ → ℕ → ℚ)
    (dO : ℕ → ℕ → ℚ) (gc : ℕ → ℕ → ℕ → ℚ) (n j d : ℕ) : ℚ :=
  ∑ c ∈ Finset.range K,
    kB n j c * fused_chunk_gla_bwd_dh E BT NT qB dO gc (NT - 1 - n) c d

/-- Source `bwd_decay_global_cumsum` (fused_chunk.py:58-111), the per-row gate
gradient term `b_dg = b_dq * b_q - b_dk * b_k` where
`b_dq = dq_inner + dq_inter * exp(b_g)` and
`b_dk = dk_inner + dk_inter * safe_exp(last_g - b_g)` (`b_g` is the cumulative
decay at the row, `last_g` at row `BT - 1`). -/
def bwd_decay_dg_at (θ : ℚ) (E : ℚ → ℚ) (BT : ℕ)
    (dq_inner dq_inter dk_inner dk_inter q k : ℕ → ℕ → ℚ)
    (gc : ℕ → ℕ → ℕ → ℚ) (n p c : ℕ) : ℚ :=
  (dq_inner (n * BT + p) c + dq_inter (n * BT + p) c * E (gc n p c)) *
      q (n * BT + p) c -
    (dk_inner (n * BT + p) c +
        dk_inter (n * BT + p) c * safe_exp θ E (gc n (BT - 1) c - gc n p c)) *
      k (n * BT + p) c

/-- Source `bwd_decay_global_cumsum` (fused_chunk.py:82-103): the kernel walks
the chunk from row `BT - 1` down to row `0`, accumulating
`cum_grad_dg += b_dg` and storing the running value at each row, so the stored
gate gradient at row `j` is the suffix sum of `b_dg` over rows `j .. BT - 1`. -/
def bwd_decay_global_cumsum_dg (θ : ℚ) (E : ℚ → ℚ) (BT : ℕ)
    (dq_inner dq_inter dk_inner dk_inter q k : ℕ → ℕ → ℚ)
    (gc : ℕ → ℕ → ℕ → ℚ) (n j c : ℕ) : ℚ :=
  ∑ p ∈ Finset.Ico j BT,
    bwd_decay_dg_at θ E BT dq_inner dq_inter dk_inner dk_inter q k gc n p c

/-- Source `FusedChunkGLAFunction.backward` (fused_chunk.py:586-589):
`rev_cumsum_exclusive(x)`: `cumsum_x = x.cumsum(-2);
rev_cumsum_x = cumsum_x[..., -1, None, :] - cumsum_x`, applied along an axis of
length `NT`. -/
def rev_cumsum_exclusive (NT : ℕ) (x : ℕ → ℚ) (n : ℕ) : ℚ :=
  (∑ m ∈ Finset.range NT, x m) - ∑ m ∈ Finset.range (n + 1), x m

/-- Source `FusedChunkGLAFunction.backward` (fused_chunk.py:584-594): the final
gate gradient.  `dg` is reshaped per chunk, `rev_cumsum_dg =
rev_cumsum_exclusive(dg[..., 0, :])` is taken over the CHUNK axis of the
position-0 slice, and `dg.add_(rev_cumsum_dg.unsqueeze(-2))` adds the result to
every position of the chunk. -/
def fused_chunk_gla_backward_dg (θ : ℚ) (E : ℚ → ℚ) (BT NT : ℕ)
    (dq_inner dq_inter dk_inner dk_inter q k : ℕ → ℕ → ℚ)
    (gc : ℕ → ℕ → ℕ → ℚ) (n j c : ℕ) : ℚ :=
  bwd_decay_global_cumsum_dg θ E BT dq_inner dq_inter dk_inner dk_inter
      q k gc n j c +
    rev_cumsum_exclusive NT
      (fun m =>
        bwd_decay_global_cumsum_dg θ E BT dq_inner dq_inter dk_inner dk_inter
          q k gc m 0 c) n

end FusedChunkGLA

namespace ChunkDplrBwd

/-- Mutable stores threaded through the chunk loop of
`chunk_dplr_bwd_kernel_dhu` (chunk_h_bwd.py:32-107): the value-gradient input
`dv` (the kernel only ever loads from it), the freshly allocated combined
value-gradient `dv2`, the per-chunk state-gradient table `dh`, and the carried
state gradient `b_dh`. -/
structure State where
  dv : ℕ → ℕ → ℚ
  dv2 : ℕ → ℕ → ℚ
  dh : ℕ → ℕ → ℕ → ℚ
  bdh : ℕ → ℕ → ℚ

/-- Source `chunk_dplr_bwd_kernel_dhu` (chunk_h_bwd.py:76-103), one iteration of
the chunk loop, processing chunk `n = NT - 1 - j` (the loop runs
`for i_t in range(NT - 1, -1, -1)`).  It stores the pre-update `b_dh` into the
`dh` table, writes `b_dv2 = b_dv + tl.dot(b_bg, b_dh)` into `dv2` for every row
of the chunk, accumulates `b_dh_tmp = Σ (qgᵀ ⊗ do + wᵀ ⊗ dv2)` over the chunk,
and finally updates `b_dh = b_dh * exp(bg_last)[:, None] + b_dh_tmp` with
`bg_last` the decay at the last row of the chunk (`last_idx = (n+1)*BT - 1`). -/
def step (E : ℚ → ℚ) (BT K NT : ℕ) (qg bg w gk : ℕ → ℕ → ℚ)
    (dO : ℕ → ℕ → ℚ) (j : ℕ) (s : State) : State :=
  let n := NT - 1 - j
  let dv2row : ℕ → ℕ → ℚ := fun i d =>
    s.dv (n * BT + i) d + ∑ c ∈ Finset.range K, bg (n * BT + i) c * s.bdh c d
  { dv := s.dv
    dv2 := fun t d =>
      if n * BT ≤ t ∧ t < n * BT + BT then dv2row (t - n * BT) d else s.dv2 t d
    dh := fun m c d => if m = n then s.bdh c d else s.dh m c d
    bdh := fun c d =>
      s.bdh c d * E (gk ((n + 1) * BT - 1) c) +
        ∑ i ∈ Finset.range BT,
          (qg (n * BT + i) c * dO (n * BT + i) d +
            w (n * BT + i) c * dv2row i d) }

/-- Source `chunk_dplr_bwd_kernel_dhu` (chunk_h_bwd.py:69-103): the state after
`j` iterations of the chunk loop.  `b_dh` starts from the externally supplied
final-state gradient `dht0` when one exists (`USE_FINAL_STATE_GRADIENT`), else
from zero (the caller passes `dht0 = 0` in that case); `dv2` is freshly
allocated as `torch.zeros_like(dv)` (chunk_h_bwd.py:150). -/
def loop (E : ℚ → ℚ) (BT K NT : ℕ) (qg bg w gk : ℕ → ℕ → ℚ)
    (dO dv0 : ℕ → ℕ → ℚ) (dht0 : ℕ → ℕ → ℚ) : ℕ → State
  | 0 => ⟨dv0, fun _ _ => 0, fun _ _ _ => 0, dht0⟩
  | j + 1 => step E BT K NT qg bg w gk dO j (loop E BT K NT qg bg w gk dO dv0 dht0 j)

/-- Source `chunk_dplr_bwd_dhu` (chunk_h_bwd.py:110-175): runs the kernel over
all `NT` chunks and returns the triple `(dh, dh0, dv2)`; `dh0` is the final
value of the carried state gradient (stored when an initial state exists). -/
def chunk_dplr_bwd_dhu (E : ℚ → ℚ) (BT K NT : ℕ) (qg bg w gk : ℕ → ℕ → ℚ)
    (dO dv0 : ℕ → ℕ → ℚ) (dht0 : ℕ → ℕ → ℚ) :
    (ℕ → ℕ → ℕ → ℚ) × (ℕ → ℕ → ℚ) × (ℕ → ℕ → ℚ) :=
  let s := loop E BT K NT qg bg w gk dO dv0 dht0 NT
  (s.dh, s.bdh, s.dv2)

end ChunkDplrBwd

namespace FusedChunkGLA

/-! ### Helper lemmas -/

theorem naive_state_unroll (E : ℚ → ℚ) (hE : ∀ a b, E (a + b) = E a * E b)
    (hE1 : E 0 = 1) (k v g : ℕ → ℕ → ℚ) (h0 : ℕ → ℕ → ℚ) (s : ℕ) :
    ∀ (m c d : ℕ),
      naive_recurrent_state E k v g h0 (s + m) c d =
        naive_recurrent_state E k v g h0 s c d *
            E (∑ j ∈ Finset.range m, g (s + j) c) +
          ∑ i ∈ Finset.range m,
            k (s + i) c * E (∑ j ∈ Finset.Ico (i + 1) m, g (s + j) c) *
              v (s + i) d := by
  intro m
  induction m with
  | zero => intro c d; simp [hE1]
  | succ m ih =>
      intro c d
      have hstep : naive_recurrent_state E k v g h0 (s + (m + 1)) c d =
          naive_recurrent_state E k v g h0 (s + m) c d * E (g (s + m) c) +
            k (s + m) c * v (s + m) d := by
        have h1 : s + (m + 1) = (s + m) + 1 := by omega
        rw [h1]
        simp [naive_recurrent_state]
      rw [hstep, ih]
      have hsum1 : (∑ j ∈ Finset.range (m + 1), g (s + j) c) =
          (∑ j ∈ Finset.range m, g (s + j) c) + g (s + m) c :=
        Finset.sum_range_succ _ _
      rw [hsum1, hE, Finset.sum_range_succ]
      have hempty : (∑ j ∈ Finset.Ico (m + 1) (m + 1), g (s + j) c) = 0 := by
        simp
      rw [hempty, hE1]
      have hcongr : ∀ x ∈ Finset.range m,
          k (s + x) c * E (∑ j ∈ Finset.Ico (x + 1) (m + 1), g (s + j) c) *
              v (s + x) d =
            k (s + x) c *
                (E (∑ j ∈ Finset.Ico (x + 1) m, g (s + j) c) * E (g (s + m) c)) *
              v (s + x) d := by
        intro x hx
        rw [Finset.sum_Ico_succ_top (by
          have := Finset.mem_range.mp hx
          omega : x + 1 ≤ m), hE]
      rw [Finset.sum_congr rfl hcongr]
      have hfac :
          (∑ x ∈ Finset.range m,
              k (s + x) c *
                  (E (∑ j ∈ Finset.Ico (x + 1) m, g (s + j) c) *
                    E (g (s + m) c)) *
                v (s + x) d) =
            (∑ x ∈ Finset.range m,
                k (s + x) c * E (∑ j ∈ Finset.Ico (x + 1) m, g (s + j) c) *
                  v (s + x) d) * E (g (s + m) c) := by
        rw [Finset.sum_mul]
        exact Finset.sum_congr rfl (fun x _ => by ring)
      rw [hfac]
      ring

theorem chunk_local_cumsum_last (BT : ℕ) (hBT : 0 < BT) (g : ℕ → ℕ → ℚ)
    (n c : ℕ) :
    chunk_local_cumsum BT g n (BT - 1) c =
      ∑ j ∈ Finset.range BT, g (n * BT + j) c := by
  unfold chunk_local_cumsum
  have h1 : BT - 1 + 1 = BT := by omega
  rw [h1]

theorem chunk_local_cumsum_sub (BT : ℕ) (g : ℕ → ℕ → ℚ) (n i j c : ℕ)
    (hij : j ≤ i) :
    chunk_local_cumsum BT g n i c - chunk_local_cumsum BT g n j c =
      ∑ p ∈ Finset.Ico (j + 1) (i + 1), g (n * BT + p) c := by
  unfold chunk_local_cumsum
  rw [Finset.sum_Ico_eq_sub _ (by omega : j + 1 ≤ i + 1)]

theorem fwd_h_eq_naive (E : ℚ → ℚ) (hE : ∀ a b, E (a + b) = E a * E b)
    (hE1 : E 0 = 1) (BT : ℕ) (hBT : 0 < BT) (k v g : ℕ → ℕ → ℚ)
    (h0 : ℕ → ℕ → ℚ) :
    ∀ (n c d : ℕ),
      fused_chunk_gla_fwd_h E BT (prepare_kg E BT k (chunk_local_cumsum BT g))
          v (chunk_local_cumsum BT g) h0 n c d =
        naive_recurrent_state E k v g h0 (n * BT) c d := by
  intro n
  induction n with
  | zero => intro c d; simp [fused_chunk_gla_fwd_h, naive_recurrent_state]
  | succ n ih =>
      intro c d
      have hmul : (n + 1) * BT = n * BT + BT := by ring
      rw [hmul, naive_state_unroll E hE hE1 k v g h0 (n * BT) BT c d]
      show fused_chunk_gla_fwd_h E BT
          (prepare_kg E BT k (chunk_local_cumsum BT g)) v
          (chunk_local_cumsum BT g) h0 n c d *
            E (chunk_local_cumsum BT g n (BT - 1) c) +
          (∑ i ∈ Finset.range BT,
            prepare_kg E BT k (chunk_local_cumsum BT g) n i c *
              v (n * BT + i) d) = _
      rw [ih, chunk_local_cumsum_last BT hBT g n c]
      congr 1
      refine Finset.sum_congr rfl (fun i hi => ?_)
      unfold prepare_kg
      rw [chunk_local_cumsum_sub BT g n (BT - 1) i c (by
        have := Finset.mem_range.mp hi
        omega)]
      have harg : Finset.Ico (i + 1) (BT - 1 + 1) = Finset.Ico (i + 1) BT := by
        congr 1
        omega
      rw [harg]

theorem naive_zero_gate (E : ℚ → ℚ) (hE1 : E 0 = 1) (k v : ℕ → ℕ → ℚ)
    (h0 : ℕ → ℕ → ℚ) :
    ∀ (t c d : ℕ),
      naive_recurrent_state E k v (fun _ _ => 0) h0 t c d =
        linear_attn_state k v h0 t c d := by
  intro t
  induction t with
  | zero => intro c d; rfl
  | succ t ih =>
      intro c d
      simp only [naive_recurrent_state, linear_attn_state, ih, hE1, mul_one]

end FusedChunkGLA

namespace FusedChunkGLA

theorem forward_o_eq_naive (θ : ℚ) (E : ℚ → ℚ)
    (hE : ∀ a b, E (a + b) = E a * E b) (hE1 : E 0 = 1) (scale : ℚ)
    (BT K : ℕ) (hBT : 0 < BT) (q k v g : ℕ → ℕ → ℚ) (h0 : ℕ → ℕ → ℚ)
    (n i d : ℕ) (hi : i < BT)
    (hs : ∀ j ∈ Finset.range (i + 1), ∀ c ∈ Finset.range K,
      -θ ≤ chunk_local_cumsum BT g n i c - chunk_local_cumsum BT g n j c) :
    fused_chunk_gla_forward_o θ E scale BT K q k v g h0 n i d =
      naive_recurrent_o E scale K q k v g h0 (n * BT + i) d := by
  have hinter :
      fused_chunk_gla_fwd_o E BT K
          (prepare_qg E scale BT q (chunk_local_cumsum BT g))
          (prepare_kg E BT k (chunk_local_cumsum BT g)) v
          (chunk_local_cumsum BT g) h0 n i d =
        ∑ c ∈ Finset.range K,
          q (n * BT + i) c * E (chunk_local_cumsum BT g n i c) * scale *
            naive_recurrent_state E k v g h0 (n * BT) c d := by
    unfold fused_chunk_gla_fwd_o
    refine Finset.sum_congr rfl (fun c _ => ?_)
    rw [fwd_h_eq_naive E hE hE1 BT hBT k v g h0 n c d]
    simp [prepare_qg]
  have hintra :
      (∑ j ∈ Finset.range BT,
          fwd_inner_chunk_A θ E scale BT K q k (chunk_local_cumsum BT g) n i j *
            v (n * BT + j) d) =
        ∑ c ∈ Finset.range K, ∑ j ∈ Finset.range (i + 1),
          q (n * BT + i) c * scale * k (n * BT + j) c *
            E (chunk_local_cumsum BT g n i c - chunk_local_cumsum BT g n j c) *
            v (n * BT + j) d := by
    have hsub : Finset.range (i + 1) ⊆ Finset.range BT :=
      Finset.range_subset.mpr (by omega)
    have hz : ∀ j ∈ Finset.range BT, j ∉ Finset.range (i + 1) →
        fwd_inner_chunk_A θ E scale BT K q k (chunk_local_cumsum BT g) n i j *
          v (n * BT + j) d = 0 := by
      intro j _ hj
      have hji : ¬ j ≤ i := by
        simp only [Finset.mem_range] at hj
        omega
      unfold fwd_inner_chunk_A
      rw [if_neg hji, zero_mul]
    rw [← Finset.sum_subset hsub hz]
    rw [Finset.sum_comm]
    refine Finset.sum_congr rfl (fun j hj => ?_)
    have hji : j ≤ i := by
      have := Finset.mem_range.mp hj
      omega
    unfold fwd_inner_chunk_A
    rw [if_pos hji, Finset.sum_mul]
    refine Finset.sum_congr rfl (fun c hc => ?_)
    unfold safe_exp
    rw [if_neg (not_lt.mpr (hs j hj c hc))]
  have hnaive :
      naive_recurrent_o E scale K q k v g h0 (n * BT + i) d =
        (∑ c ∈ Finset.range K,
            q (n * BT + i) c * E (chunk_local_cumsum BT g n i c) * scale *
              naive_recurrent_state E k v g h0 (n * BT) c d) +
          ∑ c ∈ Finset.range K, ∑ j ∈ Finset.range (i + 1),
            q (n * BT + i) c * scale * k (n * BT + j) c *
              E (chunk_local_cumsum BT g n i c -
                  chunk_local_cumsum BT g n j c) *
              v (n * BT + j) d := by
    unfold naive_recurrent_o
    have ht : n * BT + i + 1 = n * BT + (i + 1) := by omega
    rw [ht]
    have hc : ∀ c ∈ Finset.range K,
        q (n * BT + i) c * naive_recurrent_state E k v g h0 (n * BT + (i + 1)) c d =
          q (n * BT + i) c *
            (naive_recurrent_state E k v g h0 (n * BT) c d *
                E (chunk_local_cumsum BT g n i c) +
              ∑ j ∈ Finset.range (i + 1),
                k (n * BT + j) c *
                  E (chunk_local_cumsum BT g n i c -
                      chunk_local_cumsum BT g n j c) *
                  v (n * BT + j) d) := by
      intro c _
      rw [naive_state_unroll E hE hE1 k v g h0 (n * BT) (i + 1) c d]
      have harg : (∑ j ∈ Finset.range (i + 1), g (n * BT + j) c) =
          chunk_local_cumsum BT g n i c := rfl
      rw [harg]
      have hsum : (∑ p ∈ Finset.range (i + 1),
          k (n * BT + p) c *
              E (∑ j ∈ Finset.Ico (p + 1) (i + 1), g (n * BT + j) c) *
            v (n * BT + p) d) =
          ∑ j ∈ Finset.range (i + 1),
            k (n * BT + j) c *
                E (chunk_local_cumsum BT g n i c -
                    chunk_local_cumsum BT g n j c) *
              v (n * BT + j) d := by
        refine Finset.sum_congr rfl (fun p hp => ?_)
        rw [chunk_local_cumsum_sub BT g n i p c (by
          have := Finset.mem_range.mp hp
          omega)]
      rw [hsum]
    rw [Finset.sum_congr rfl hc, Finset.mul_sum, ← Finset.sum_add_distrib]
    refine Finset.sum_congr rfl (fun c _ => ?_)
    rw [mul_add, mul_add, Finset.mul_sum, Finset.mul_sum]
    congr 1
    · ring
    · refine Finset.sum_congr rfl (fun j _ => ?_)
      ring
  unfold fused_chunk_gla_forward_o
  rw [hinter, hintra, hnaive]

end FusedChunkGLA

namespace FusedChunkGLA

/-! ### Claim theorems -/

/-- C1: for every query/key/value/gate input and (optional, here explicit, with
`h0 = 0` for the absent case) initial state, the chunked engine's per-position
output and its final state equal those of the reference that applies the
recurrence one timestep at a time, `S_t = S_{t-1} ⊙ exp(gate_t) + key_tᵀ
value_t`, `output_t = scale · query_t · S_t` — exactly, in exact arithmetic,
for any exponential `E` satisfying `E (a+b) = E a · E b` and `E 0 = 1`, as long
as no chunk-local cumulative-decay difference falls below the safe-exponential
clamp threshold `θ` (below the threshold the engine flushes the intra-chunk
factor to exact zero, which is precisely the deviation the spec's tolerance
clause covers). -/
theorem fused_chunk_gla_matches_naive (θ : ℚ) (E : ℚ → ℚ) (scale : ℚ)
    (BT K NT : ℕ) (q k v g : ℕ → ℕ → ℚ) (h0 : ℕ → ℕ → ℚ)
    (hE : ∀ a b, E (a + b) = E a * E b) (hE1 : E 0 = 1) (hBT : 0 < BT)
    (hs : ∀ n ∈ Finset.range NT, ∀ i ∈ Finset.range BT,
      ∀ j ∈ Finset.range (i + 1), ∀ c ∈ Finset.range K,
      -θ ≤ chunk_local_cumsum BT g n i c - chunk_local_cumsum BT g n j c) :
    (∀ n ∈ Finset.range NT, ∀ i ∈ Finset.range BT, ∀ d : ℕ,
        fused_chunk_gla_forward_o θ E scale BT K q k v g h0 n i d =
          naive_recurrent_o E scale K q k v g h0 (n * BT + i) d) ∧
      ∀ c d : ℕ,
        fused_chunk_gla_fwd_h E BT
            (prepare_kg E BT k (chunk_local_cumsum BT g)) v
            (chunk_local_cumsum BT g) h0 NT c d =
          naive_recurrent_state E k v g h0 (NT * BT) c d := by
  constructor
  · intro n hn i hi d
    exact forward_o_eq_naive θ E hE hE1 scale BT K hBT q k v g h0 n i d
      (Finset.mem_range.mp hi) (hs n hn i hi)
  · exact fun c d => fwd_h_eq_naive E hE hE1 BT hBT k v g h0 NT c d

/-- Witness for C1 at a concrete instance: one chunk of length one, one key and
one value channel, unit inputs, zero gate, trivial exponential. -/
theorem fused_chunk_gla_matches_naive_witness :
    fused_chunk_gla_forward_o 1 (fun _ => 1) 1 1 1 (fun _ _ => 1)
        (fun _ _ => 1) (fun _ _ => 1) (fun _ _ => 0) (fun _ _ => 0) 0 0 0 =
      naive_recurrent_o (fun _ => 1) 1 1 (fun _ _ => 1) (fun _ _ => 1)
        (fun _ _ => 1) (fun _ _ => 0) (fun _ _ => 0) 0 0 :=
  (fused_chunk_gla_matches_naive 1 (fun _ => 1) 1 1 1 1 (fun _ _ => 1)
      (fun _ _ => 1) (fun _ _ => 1) (fun _ _ => 0) (fun _ _ => 0)
      (fun _ _ => by norm_num) rfl (by norm_num)
      (by intro n _ i _ j _ c _; norm_num [chunk_local_cumsum])).1
    0 (by decide) 0 (by decide) 0

/-- C2: feeding the outputs of `prepare_qg_kg` into the forward state-passing
kernel, each chunk's inter-chunk output contribution is the query block — every
row scaled by `exp` of its chunk-local cumulative decay and by the attention
scale — multiplied by the pre-update state, and the state update multiplies
each key row of the state by `exp` of the chunk-total decay (broadcast over the
value dimension) and adds the transposed key block times the value block, each
key row scaled by `exp(chunk-total decay − its chunk-local cumulative decay)`. -/
theorem fused_chunk_gla_inter_and_state_update (E : ℚ → ℚ) (scale : ℚ)
    (BT K : ℕ) (q k v g : ℕ → ℕ → ℚ) (h0 : ℕ → ℕ → ℚ) :
    (∀ n i d : ℕ,
        fused_chunk_gla_fwd_o E BT K
            (prepare_qg E scale BT q (chunk_local_cumsum BT g))
            (prepare_kg E BT k (chunk_local_cumsum BT g)) v
            (chunk_local_cumsum BT g) h0 n i d =
          ∑ c ∈ Finset.range K,
            scale * (q (n * BT + i) c * E (chunk_local_cumsum BT g n i c)) *
              fused_chunk_gla_fwd_h E BT
                (prepare_kg E BT k (chunk_local_cumsum BT g)) v
                (chunk_local_cumsum BT g) h0 n c d) ∧
      ∀ n c d : ℕ,
        fused_chunk_gla_fwd_h E BT
            (prepare_kg E BT k (chunk_local_cumsum BT g)) v
            (chunk_local_cumsum BT g) h0 (n + 1) c d =
          fused_chunk_gla_fwd_h E BT
              (prepare_kg E BT k (chunk_local_cumsum BT g)) v
              (chunk_local_cumsum BT g) h0 n c d *
            E (chunk_local_cumsum BT g n (BT - 1) c) +
          ∑ i ∈ Finset.range BT,
            k (n * BT + i) c *
                E (chunk_local_cumsum BT g n (BT - 1) c -
                    chunk_local_cumsum BT g n i c) *
              v (n * BT + i) d := by
  constructor
  · intro n i d
    unfold fused_chunk_gla_fwd_o
    refine Finset.sum_congr rfl (fun c _ => ?_)
    unfold prepare_qg
    ring
  · intro n c d
    simp only [fused_chunk_gla_fwd_h, prepare_kg]

/-- C5: the intra-chunk interaction matrix is
`A[i,j] = scale · Σ_c q[i,c]·k[j,c]·exp(cum_decay[i,c] − cum_decay[j,c])` for
`j ≤ i` and `0` for `j > i` (with the exponential realized by the clamped
`safe_exp`, which agrees with `exp` above the clamp threshold), and the full
forward output is the inter-chunk contribution plus `A @ value_block`,
elementwise. -/
theorem fwd_inner_chunk_A_spec (θ : ℚ) (E : ℚ → ℚ) (scale : ℚ) (BT K : ℕ)
    (q k v g : ℕ → ℕ → ℚ) (h0 : ℕ → ℕ → ℚ) (n i j : ℕ)
    (hs : ∀ p ∈ Finset.range (i + 1), ∀ c ∈ Finset.range K,
      -θ ≤ chunk_local_cumsum BT g n i c - chunk_local_cumsum BT g n p c) :
    (j ≤ i →
        fwd_inner_chunk_A θ E scale BT K q k (chunk_local_cumsum BT g) n i j =
          scale * ∑ c ∈ Finset.range K,
            q (n * BT + i) c * k (n * BT + j) c *
              E (chunk_local_cumsum BT g n i c -
                  chunk_local_cumsum BT g n j c)) ∧
      (i < j →
        fwd_inner_chunk_A θ E scale BT K q k (chunk_local_cumsum BT g) n i j
          = 0) ∧
      ∀ d : ℕ,
        fused_chunk_gla_forward_o θ E scale BT K q k v g h0 n i d =
          fused_chunk_gla_fwd_o E BT K
              (prepare_qg E scale BT q (chunk_local_cumsum BT g))
              (prepare_kg E BT k (chunk_local_cumsum BT g)) v
              (chunk_local_cumsum BT g) h0 n i d +
            ∑ p ∈ Finset.range BT,
              fwd_inner_chunk_A θ E scale BT K q k (chunk_local_cumsum BT g)
                  n i p *
                v (n * BT + p) d := by
  refine ⟨?_, ?_, ?_⟩
  · intro hji
    unfold fwd_inner_chunk_A
    rw [if_pos hji, Finset.mul_sum]
    refine Finset.sum_congr rfl (fun c hc => ?_)
    unfold safe_exp
    rw [if_neg (not_lt.mpr (hs j (Finset.mem_range.mpr (by omega)) c hc))]
    ring
  · intro hij
    unfold fwd_inner_chunk_A
    rw [if_neg (by omega)]
  · intro d
    rfl

/-- Witness for C5 at a concrete instance: the diagonal entry of the
interaction matrix of a one-position chunk with unit inputs and zero gate. -/
theorem fwd_inner_chunk_A_spec_witness :
    fwd_inner_chunk_A 1 (fun _ => 1) 1 1 1 (fun _ _ => 1) (fun _ _ => 1)
        (chunk_local_cumsum 1 (fun _ _ => 0)) 0 0 0 =
      1 * ∑ c ∈ Finset.range 1,
        (fun _ _ => (1 : ℚ)) (0 * 1 + 0) c * (fun _ _ => (1 : ℚ)) (0 * 1 + 0) c *
          (fun _ => (1 : ℚ))
            (chunk_local_cumsum 1 (fun _ _ => 0) 0 0 c -
              chunk_local_cumsum 1 (fun _ _ => 0) 0 0 c) :=
  (fwd_inner_chunk_A_spec 1 (fun _ => 1) 1 1 1 (fun _ _ => 1) (fun _ _ => 1)
      (fun _ _ => 1) (fun _ _ => 0) (fun _ _ => 0) 0 0 0
      (by intro p _ c _; norm_num [chunk_local_cumsum])).1
    (le_refl 0)

/-- C9: with the gate identically zero the engine computes exactly ungated
linear attention (`S_t = S_{t-1} + key_tᵀ value_t`), for any exponential with
`E (a+b) = E a · E b` and `E 0 = 1` and any nonnegative clamp threshold. -/
theorem fused_chunk_gla_zero_gate (θ : ℚ) (E : ℚ → ℚ) (scale : ℚ)
    (BT K NT : ℕ) (q k v : ℕ → ℕ → ℚ) (h0 : ℕ → ℕ → ℚ)
    (hE : ∀ a b, E (a + b) = E a * E b) (hE1 : E 0 = 1) (hθ : 0 ≤ θ)
    (hBT : 0 < BT) :
    ∀ n ∈ Finset.range NT, ∀ i ∈ Finset.range BT, ∀ d : ℕ,
      fused_chunk_gla_forward_o θ E scale BT K q k v (fun _ _ => 0) h0 n i d =
        linear_attn_o scale K q k v h0 (n * BT + i) d := by
  intro n hn i hi d
  have hg0 : ∀ n' i' c',
      chunk_local_cumsum BT (fun _ _ => (0 : ℚ)) n' i' c' = 0 := by
    intro n' i' c'
    simp [chunk_local_cumsum]
  have hs : ∀ j ∈ Finset.range (i + 1), ∀ c ∈ Finset.range K,
      -θ ≤ chunk_local_cumsum BT (fun _ _ => (0 : ℚ)) n i c -
        chunk_local_cumsum BT (fun _ _ => (0 : ℚ)) n j c := by
    intro j _ c _
    rw [hg0, hg0]
    simpa using neg_nonpos.mpr hθ
  rw [forward_o_eq_naive θ E hE hE1 scale BT K hBT q k v (fun _ _ => 0) h0 n i d
    (Finset.mem_range.mp hi) hs]
  unfold naive_recurrent_o linear_attn_o
  congr 1
  refine Finset.sum_congr rfl (fun c _ => ?_)
  rw [naive_zero_gate E hE1 k v h0]

/-- Witness for C9 at a concrete instance. -/
theorem fused_chunk_gla_zero_gate_witness :
    fused_chunk_gla_forward_o 1 (fun _ => 1) 1 1 1 (fun _ _ => 1)
        (fun _ _ => 1) (fun _ _ => 1) (fun _ _ => 0) (fun _ _ => 0) 0 0 0 =
      linear_attn_o 1 1 (fun _ _ => 1) (fun _ _ => 1) (fun _ _ => 1)
        (fun _ _ => 0) 0 0 :=
  fused_chunk_gla_zero_gate 1 (fun _ => 1) 1 1 1 1 (fun _ _ => 1)
    (fun _ _ => 1) (fun _ _ => 1) (fun _ _ => 0) (fun _ _ => by norm_num) rfl
    (by norm_num) (by norm_num) 0 (by decide) 0 (by decide) 0

end FusedChunkGLA

namespace FusedChunkGLA

/-- C3 counterexample: the claim as stated initializes the state gradient `dS`
from the externally supplied final-state gradient when one is present.  With
one chunk (`NT = BT = K = V = 1`), `dht = 1` (entry `(0,0)`), `v = 1`,
`qB = dO = 0`, the claimed per-chunk `dK = (dS @ vᵀ)ᵀ` with `dS` initialized
from `dht` is `Σ_d dht[0,d]·v[0,d] = 1`, but the kernel's `dK` is `0`:
`fused_chunk_gla_bwd_kernel` has no final-state-gradient input at all — its
`b_dh` always starts from `tl.zeros` and `FusedChunkGLAFunction.backward`
ignores its `dht` argument. -/
theorem fused_chunk_gla_bwd_dk_ignores_dht :
    fused_chunk_gla_bwd_dk (fun _ => 1) 1 1 1 (fun _ _ _ => 0) (fun _ _ => 0)
        (fun _ _ => 1) (fun _ _ _ => 0) 0 0 0 ≠
      ∑ d ∈ Finset.range 1,
        (fun _ _ => (1 : ℚ)) 0 d * (fun _ _ => (1 : ℚ)) (0 * 1 + 0) d := by
  unfold fused_chunk_gla_bwd_dk
  simp [fused_chunk_gla_bwd_dh]

/-- C3 (amended): the backward state-gradient loop of
`fused_chunk_gla_bwd_kernel` traverses chunks in decreasing time order per
(sequence, head) with `dS` initialized to ZERO — the kernel has no
final-state-gradient input and `backward` ignores the supplied `dht` — and for
every chunk updates `dS ← dS ⊙ exp(chunk-total decay) + queryᵀ @ dO_block`
before moving to the earlier chunk; the per-chunk `dK` contribution is
`(dS @ valueᵀ)ᵀ` and the `dV` contribution is `key @ dS` (query/key being the
decay-scaled blocks the kernel is called with). -/
theorem fused_chunk_gla_bwd_dh_spec (E : ℚ → ℚ) (BT NT K V : ℕ)
    (qB kB : ℕ → ℕ → ℕ → ℚ) (dO v : ℕ → ℕ → ℚ) (gc : ℕ → ℕ → ℕ → ℚ)
    (hNT : 0 < NT) :
    (∀ c d : ℕ,
        fused_chunk_gla_bwd_dh E BT NT qB dO gc (NT - 1 - (NT - 1)) c d = 0) ∧
      (∀ n, 0 < n → n < NT → ∀ c d : ℕ,
        fused_chunk_gla_bwd_dh E BT NT qB dO gc (NT - 1 - (n - 1)) c d =
          fused_chunk_gla_bwd_dh E BT NT qB dO gc (NT - 1 - n) c d *
              E (gc n (BT - 1) c) +
            ∑ i ∈ Finset.range BT, qB n i c * dO (n * BT + i) d) ∧
      (∀ n j c : ℕ,
        fused_chunk_gla_bwd_dk E BT NT V qB dO v gc n j c =
          ∑ d ∈ Finset.range V,
            fused_chunk_gla_bwd_dh E BT NT qB dO gc (NT - 1 - n) c d *
              v (n * BT + j) d) ∧
      ∀ n j d : ℕ,
        fused_chunk_gla_bwd_dv E BT NT K qB kB dO gc n j d =
          ∑ c ∈ Finset.range K,
            kB n j c * fused_chunk_gla_bwd_dh E BT NT qB dO gc (NT - 1 - n) c d := by
  refine ⟨?_, ?_, fun n j c => rfl, fun n j d => rfl⟩
  · intro c d
    have h1 : NT - 1 - (NT - 1) = 0 := by omega
    rw [h1]
    rfl
  · intro n hn1 hn2 c d
    have h1 : NT - 1 - (n - 1) = (NT - 1 - n) + 1 := by omega
    have h2 : NT - 1 - (NT - 1 - n) = n := by omega
    rw [h1]
    simp only [fused_chunk_gla_bwd_dh, h2]

/-- Witness for C3 (amended) at a concrete instance. -/
theorem fused_chunk_gla_bwd_dh_spec_witness :
    fused_chunk_gla_bwd_dh (fun _ => 1) 1 1 (fun _ _ _ => 0) (fun _ _ => 0)
        (fun _ _ _ => 0) 0 0 0 = 0 :=
  (fused_chunk_gla_bwd_dh_spec (fun _ => 1) 1 1 1 1 (fun _ _ _ => 0)
      (fun _ _ _ => 0) (fun _ _ => 0) (fun _ _ => 0) (fun _ _ _ => 0)
      (by decide)).1 0 0

/-- C4: the final gate gradient produced by the backward pass at chunk `n`,
position `j`, is the kernel-stored local decay gradient at that position plus
the reverse-exclusive cumulative sum — over the chunks strictly after `n`, up
to the last chunk — of the per-chunk boundary contribution (the position-0
slice of the stored gradient); and the reverse-exclusive cumulative sum
operator indeed satisfies `rev[t] = Σ_{t' = t+1}^{end} x[t']`, excluding `t`
itself. -/
theorem fused_chunk_gla_backward_dg_spec (θ : ℚ) (E : ℚ → ℚ) (BT NT : ℕ)
    (dq_inner dq_inter dk_inner dk_inter q k : ℕ → ℕ → ℚ)
    (gc : ℕ → ℕ → ℕ → ℚ) (n j c : ℕ) (hn : n < NT) :
    fused_chunk_gla_backward_dg θ E BT NT dq_inner dq_inter dk_inner dk_inter
        q k gc n j c =
      bwd_decay_global_cumsum_dg θ E BT dq_inner dq_inter dk_inner dk_inter
          q k gc n j c +
        (∑ m ∈ Finset.Ico (n + 1) NT,
          bwd_decay_global_cumsum_dg θ E BT dq_inner dq_inter dk_inner dk_inter
            q k gc m 0 c) ∧
      ∀ (x : ℕ → ℚ) (t : ℕ), t < NT →
        rev_cumsum_exclusive NT x t = ∑ m ∈ Finset.Ico (t + 1) NT, x m := by
  have hrev : ∀ (x : ℕ → ℚ) (t : ℕ), t < NT →
      rev_cumsum_exclusive NT x t = ∑ m ∈ Finset.Ico (t + 1) NT, x m := by
    intro x t ht
    unfold rev_cumsum_exclusive
    rw [Finset.sum_Ico_eq_sub _ (by omega : t + 1 ≤ NT)]
  refine ⟨?_, hrev⟩
  unfold fused_chunk_gla_backward_dg
  rw [hrev _ n hn]

/-- Witness for C4 at a concrete instance. -/
theorem fused_chunk_gla_backward_dg_spec_witness :
    fused_chunk_gla_backward_dg 1 (fun _ => 1) 1 1 (fun _ _ => 0)
        (fun _ _ => 0) (fun _ _ => 0) (fun _ _ => 0) (fun _ _ => 0)
        (fun _ _ => 0) (fun _ _ _ => 0) 0 0 0 =
      bwd_decay_global_cumsum_dg 1 (fun _ => 1) 1 (fun _ _ => 0) (fun _ _ => 0)
          (fun _ _ => 0) (fun _ _ => 0) (fun _ _ => 0) (fun _ _ => 0)
          (fun _ _ _ => 0) 0 0 0 +
        ∑ m ∈ Finset.Ico 1 1,
          bwd_decay_global_cumsum_dg 1 (fun _ => 1) 1 (fun _ _ => 0)
            (fun _ _ => 0) (fun _ _ => 0) (fun _ _ => 0) (fun _ _ => 0)
            (fun _ _ => 0) (fun _ _ _ => 0) m 0 0 :=
  (fused_chunk_gla_backward_dg_spec 1 (fun _ => 1) 1 1 (fun _ _ => 0)
      (fun _ _ => 0) (fun _ _ => 0) (fun _ _ => 0) (fun _ _ => 0)
      (fun _ _ => 0) (fun _ _ _ => 0) 0 0 0 (by decide)).1

end FusedChunkGLA

namespace FusedChunkGLA

theorem sum_range_blocks (f : ℕ → ℚ) (K w : ℕ) (hw : 0 < w) :
    (∑ b ∈ Finset.range ((K + w - 1) / w),
        ∑ c ∈ Finset.Ico (b * w) (min ((b + 1) * w) K), f c) =
      ∑ c ∈ Finset.range K, f c := by
  have hgen : ∀ NB : ℕ,
      (∑ b ∈ Finset.range NB,
          ∑ c ∈ Finset.Ico (min (b * w) K) (min ((b + 1) * w) K), f c) =
        ∑ c ∈ Finset.range (min (NB * w) K), f c := by
    intro NB
    induction NB with
    | zero => simp
    | succ NB ih =>
        rw [Finset.sum_range_succ, ih, Finset.range_eq_Ico]
        exact Finset.sum_Ico_consecutive f (Nat.zero_le _)
          (min_le_min (Nat.mul_le_mul_right w (Nat.le_succ NB)) (le_refl K))
  have hNB : ∀ b ∈ Finset.range ((K + w - 1) / w),
      (∑ c ∈ Finset.Ico (b * w) (min ((b + 1) * w) K), f c) =
        ∑ c ∈ Finset.Ico (min (b * w) K) (min ((b + 1) * w) K), f c := by
    intro b hb
    have hb1 : b + 1 ≤ (K + w - 1) / w := Finset.mem_range.mp hb
    have hb2 : (b + 1) * w ≤ (K + w - 1) / w * w := Nat.mul_le_mul_right w hb1
    have hb3 : (K + w - 1) / w * w ≤ K + w - 1 := Nat.div_mul_le_self _ _
    have hb4 : b * w ≤ K := by
      have hsucc : (b + 1) * w = b * w + w := Nat.succ_mul b w
      omega
    rw [Nat.min_eq_left hb4]
  rw [Finset.sum_congr rfl hNB, hgen]
  have hK : K ≤ (K + w - 1) / w * w := by
    have h1 := Nat.div_add_mod (K + w - 1) w
    have h2 : (K + w - 1) % w < w := Nat.mod_lt _ hw
    have h3 : w * ((K + w - 1) / w) = (K + w - 1) / w * w := Nat.mul_comm _ _
    omega
  rw [Nat.min_eq_right hK]

/-- C6 counterexample: the claim as stated says that a key width exceeding the
maximum single-block width makes every forward and backward call fail
immediately and that the key dimension is never split across independent
accumulation units.  For `K = 128` the fused-chunk GLA forward raises no error
at all: it launches `NK = cdiv(128, min(128,64)) = 2` independent key blocks
(so the single-block invariant `NK = 1` fails) and sums their partial outputs. -/
theorem fused_chunk_gla_NK_splits :
    fused_chunk_gla_NK 128 ≠ 1 := by
  decide

/-- C6 (amended): the dplr backward entry point fails its assertion immediately
for any key width above 256 (its padded block `next_power_of_2 K` no longer
fits a single block), while the fused-chunk GLA forward validates nothing: for
any `K > 64` it splits the key dimension into `cdiv(K, 64) ≥ 2` independent
accumulation blocks, each owning a slice of the recurrent state, and the sum of
the per-block partial outputs (the `o.sum(0)` in the source) equals the
unsplit inter-chunk output. -/
theorem key_width_handling (E : ℚ → ℚ) (BT K : ℕ) (qg kg : ℕ → ℕ → ℕ → ℚ)
    (v : ℕ → ℕ → ℚ) (gc : ℕ → ℕ → ℕ → ℚ) (h0 : ℕ → ℕ → ℚ) (hK : 64 < K) :
    (∀ K' : ℕ, 256 < K' → chunk_dplr_bwd_dhu_guard K' =
        Except.error
          "current kernel does not support head dimension being larger than 256.") ∧
      2 ≤ fused_chunk_gla_NK K ∧
      ∀ n i d : ℕ,
        (∑ b ∈ Finset.range (fused_chunk_gla_NK K),
            fused_chunk_gla_fwd_o_block E BT K (min K 64) qg kg v gc h0
              b n i d) =
          fused_chunk_gla_fwd_o E BT K qg kg v gc h0 n i d := by
  have hmin : min K 64 = 64 := Nat.min_eq_right (by omega)
  refine ⟨?_, ?_, ?_⟩
  · intro K' hK'
    have h1 : K' ≤ next_power_of_2 K' := Nat.le_pow_clog (by norm_num) K'
    unfold chunk_dplr_bwd_dhu_guard
    rw [if_neg (by omega)]
  · unfold fused_chunk_gla_NK
    rw [hmin]
    have h1 : 2 * 64 ≤ K + 64 - 1 := by omega
    have h2 := Nat.div_le_div_right (c := 64) h1
    rw [Nat.mul_div_cancel_left 2 (by norm_num : (0:ℕ) < 64)] at h2
    exact h2
  · intro n i d
    unfold fused_chunk_gla_NK fused_chunk_gla_fwd_o_block fused_chunk_gla_fwd_o
    rw [hmin]
    exact sum_range_blocks _ K 64 (by norm_num)

/-- Witness for C6 (amended) at a concrete instance (`K = 128`). -/
theorem key_width_handling_witness :
    2 ≤ fused_chunk_gla_NK 128 :=
  (key_width_handling (fun _ => 1) 1 128 (fun _ _ _ => 0) (fun _ _ _ => 0)
      (fun _ _ => 0) (fun _ _ _ => 0) (fun _ _ => 0) (by norm_num)).2.1

/-- C7 counterexample: the claim as stated says EVERY elementwise exponential
applied to a difference of cumulative decay sums uses the clamped safe
exponential (exactly zero below the threshold).  This fails for
`prepare_qg_kg`: its key rescale factor is the UNCLAMPED `exp(last_decay -
b_g)`.  Concretely, with `BT = 2`, gate `g 1 = -100` (all other entries `0`)
and `k = 1`, the difference fed to the exponential at chunk 0, row 0 is
`-100`, far below the threshold `20`: under any exponential satisfying the
homomorphism law (whose values are then never zero) the code computes a
nonzero `kg` while the claimed clamped version is exactly `0`. -/
theorem prepare_kg_not_clamped :
    ¬ ∀ E : ℚ → ℚ, (∀ a b, E (a + b) = E a * E b) →
        prepare_kg E 2 (fun _ _ => 1)
            (chunk_local_cumsum 2 (fun t _ => if t = 1 then -100 else 0))
            0 0 0 =
          (fun _ _ => (1 : ℚ)) (0 * 2 + 0) 0 *
            safe_exp 20 E
              (chunk_local_cumsum 2 (fun t _ => if t = 1 then -100 else 0)
                  0 (2 - 1) 0 -
                chunk_local_cumsum 2 (fun t _ => if t = 1 then -100 else 0)
                  0 0 0) := by
  intro h
  have h1 := h (fun _ => 1) (fun a b => by norm_num)
  rw [prepare_kg, safe_exp] at h1
  norm_num [chunk_local_cumsum, Finset.sum_range_succ] at h1

/-- C7 (amended): the clamped safe exponential returns exactly zero below the
threshold `-θ` and the intra-chunk interaction kernel uses it, so a causal pair
whose decay differences all underflow contributes exactly zero to the
interaction matrix — decay underflow degrades to a zero contribution and can
never raise an error (every operation of the engine is a total function); but
`prepare_qg_kg` rescales keys with the UNCLAMPED exponential of the difference
`chunk-total decay − local cumulative decay`. -/
theorem safe_exp_usage (θ : ℚ) (E : ℚ → ℚ) (scale : ℚ) (BT K : ℕ)
    (q k : ℕ → ℕ → ℚ) (gc : ℕ → ℕ → ℕ → ℚ) :
    (∀ x : ℚ, x < -θ → safe_exp θ E x = 0) ∧
      (∀ n i j : ℕ, j ≤ i →
        (∀ c ∈ Finset.range K, gc n i c - gc n j c < -θ) →
        fwd_inner_chunk_A θ E scale BT K q k gc n i j = 0) ∧
      ∀ n i c : ℕ, prepare_kg E BT k gc n i c =
        k (n * BT + i) c * E (gc n (BT - 1) c - gc n i c) := by
  refine ⟨?_, ?_, fun n i c => rfl⟩
  · intro x hx
    unfold safe_exp
    rw [if_pos hx]
  · intro n i j hji hc
    unfold fwd_inner_chunk_A
    rw [if_pos hji]
    refine Finset.sum_eq_zero (fun c hcmem => ?_)
    unfold safe_exp
    rw [if_pos (hc c hcmem), mul_zero]

/-- Witness for C7 (amended) at a concrete instance. -/
theorem safe_exp_usage_witness :
    safe_exp 1 (fun _ => 1) (-2) = 0 :=
  (safe_exp_usage 1 (fun _ => 1) 1 1 1 (fun _ _ => 1) (fun _ _ => 1)
      (fun _ _ _ => 0)).1 (-2) (by norm_num)

/-- C8 counterexample: the claim as stated says the forward pass stores, for
every chunk, the `K × V` state at the start of that chunk.  The forward pass
saves only `(q, k, v, g_org, A, initial_state)` — the sole state tensor it
retains is the initial state — and at a concrete input (one key/value channel,
`BT = 1`, `kg = v = 1`, `h0 = 0`) the start state of chunk 1 is `1 ≠ 0`, so
the saved state fails to be the chunk-start snapshot for every chunk. -/
theorem fused_chunk_gla_snapshots_not_saved :
    ¬ ∀ n ∈ Finset.range 2, ∀ c d : ℕ,
        fused_chunk_gla_saved_state (fun _ _ => 0) c d =
          fused_chunk_gla_fwd_h (fun _ => 1) 1 (fun _ _ _ => 1)
            (fun _ _ => 1) (fun _ _ _ => 0) (fun _ _ => 0) n c d := by
  intro h
  have h1 := h 1 (by decide) 0 0
  rw [fused_chunk_gla_saved_state] at h1
  norm_num [fused_chunk_gla_fwd_h] at h1

/-- C8 (amended): the forward pass saves only `(q, k, v, g, A, initial_state)`,
and the backward kernel RECOMPUTES each chunk's start state by replaying the
forward state recurrence from the saved initial state (first loop of
`fused_chunk_gla_bwd_kernel`, flagged `# recomputation` in the source); the
replayed state provably equals the forward pass's pre-update chunk-start state,
and the `dQ` contribution of chunk `n` is `scale · dO_block @ S_nᵀ` with `S_n`
that chunk-start state. -/
theorem fused_chunk_gla_bwd_dq_spec (E : ℚ → ℚ) (scale : ℚ) (BT V : ℕ)
    (kB : ℕ → ℕ → ℕ → ℚ) (v dO : ℕ → ℕ → ℚ) (gc : ℕ → ℕ → ℕ → ℚ)
    (h0 : ℕ → ℕ → ℚ) :
    (∀ n d c : ℕ,
        fused_chunk_gla_bwd_h E BT kB v gc h0 n d c =
          fused_chunk_gla_fwd_h E BT kB v gc h0 n c d) ∧
      ∀ n i c : ℕ,
        fused_chunk_gla_bwd_dq E scale BT V kB v dO gc h0 n i c =
          scale * ∑ d ∈ Finset.range V,
            dO (n * BT + i) d * fused_chunk_gla_fwd_h E BT kB v gc h0 n c d := by
  have hrep : ∀ n d c : ℕ,
      fused_chunk_gla_bwd_h E BT kB v gc h0 n d c =
        fused_chunk_gla_fwd_h E BT kB v gc h0 n c d := by
    intro n
    induction n with
    | zero => intro d c; rfl
    | succ n ih =>
        intro d c
        simp only [fused_chunk_gla_bwd_h, fused_chunk_gla_fwd_h, ih]
        congr 1
        refine Finset.sum_congr rfl (fun i _ => ?_)
        ring
  refine ⟨hrep, fun n i c => ?_⟩
  unfold fused_chunk_gla_bwd_dq
  congr 1
  refine Finset.sum_congr rfl (fun d _ => ?_)
  rw [hrep n d c]

end FusedChunkGLA

namespace ChunkDplrBwd

theorem step_dv_eq (E : ℚ → ℚ) (BT K NT : ℕ) (qg bg w gk : ℕ → ℕ → ℚ)
    (dO : ℕ → ℕ → ℚ) (j : ℕ) (s : State) :
    (step E BT K NT qg bg w gk dO j s).dv = s.dv := rfl

theorem step_dh_eq (E : ℚ → ℚ) (BT K NT : ℕ) (qg bg w gk : ℕ → ℕ → ℚ)
    (dO : ℕ → ℕ → ℚ) (j : ℕ) (s : State) (m c d : ℕ) :
    (step E BT K NT qg bg w gk dO j s).dh m c d =
      if m = NT - 1 - j then s.bdh c d else s.dh m c d := rfl

theorem step_dv2_eq (E : ℚ → ℚ) (BT K NT : ℕ) (qg bg w gk : ℕ → ℕ → ℚ)
    (dO : ℕ → ℕ → ℚ) (j : ℕ) (s : State) (t d : ℕ) :
    (step E BT K NT qg bg w gk dO j s).dv2 t d =
      if (NT - 1 - j) * BT ≤ t ∧ t < (NT - 1 - j) * BT + BT then
        s.dv ((NT - 1 - j) * BT + (t - (NT - 1 - j) * BT)) d +
          ∑ c ∈ Finset.range K,
            bg ((NT - 1 - j) * BT + (t - (NT - 1 - j) * BT)) c * s.bdh c d
      else s.dv2 t d := rfl

theorem loop_succ_eq (E : ℚ → ℚ) (BT K NT : ℕ) (qg bg w gk : ℕ → ℕ → ℚ)
    (dO dv0 dht0 : ℕ → ℕ → ℚ) (j : ℕ) :
    loop E BT K NT qg bg w gk dO dv0 dht0 (j + 1) =
      step E BT K NT qg bg w gk dO j
        (loop E BT K NT qg bg w gk dO dv0 dht0 j) := rfl

theorem loop_dv (E : ℚ → ℚ) (BT K NT : ℕ) (qg bg w gk : ℕ → ℕ → ℚ)
    (dO dv0 dht0 : ℕ → ℕ → ℚ) :
    ∀ j, (loop E BT K NT qg bg w gk dO dv0 dht0 j).dv = dv0 := by
  intro j
  induction j with
  | zero => rfl
  | succ j ih =>
      rw [loop_succ_eq, step_dv_eq]
      exact ih

theorem mem_chunk_unique (BT n nn i : ℕ) (hi : i < BT) (hne : nn ≠ n) :
    ¬ (n * BT ≤ nn * BT + i ∧ nn * BT + i < n * BT + BT) := by
  rintro ⟨h1, h2⟩
  have e1 : (nn * BT + i) / BT = n :=
    Nat.div_eq_of_lt_le h1 (by rw [Nat.succ_mul]; omega)
  have e2 : (nn * BT + i) / BT = nn :=
    Nat.div_eq_of_lt_le (Nat.le_add_right _ _) (by rw [Nat.succ_mul]; omega)
  omega

theorem loop_dh_eq (E : ℚ → ℚ) (BT K NT : ℕ) (qg bg w gk : ℕ → ℕ → ℚ)
    (dO dv0 dht0 : ℕ → ℕ → ℚ) :
    ∀ j, j ≤ NT → ∀ jj, jj < j → ∀ c d : ℕ,
      (loop E BT K NT qg bg w gk dO dv0 dht0 j).dh (NT - 1 - jj) c d =
        (loop E BT K NT qg bg w gk dO dv0 dht0 jj).bdh c d := by
  intro j
  induction j with
  | zero => intro _ jj hjj; omega
  | succ j ih =>
      intro hj1 jj hjj c d
      rw [loop_succ_eq, step_dh_eq]
      by_cases hcase : jj = j
      · subst hcase
        rw [if_pos rfl]
      · have hne : NT - 1 - jj ≠ NT - 1 - j := by omega
        rw [if_neg hne]
        exact ih (by omega) jj (by omega) c d

theorem loop_dv2_val (E : ℚ → ℚ) (BT K NT : ℕ) (qg bg w gk : ℕ → ℕ → ℚ)
    (dO dv0 dht0 : ℕ → ℕ → ℚ) :
    ∀ j, j ≤ NT → ∀ jj, jj < j → ∀ i, i < BT → ∀ d : ℕ,
      (loop E BT K NT qg bg w gk dO dv0 dht0 j).dv2
          ((NT - 1 - jj) * BT + i) d =
        dv0 ((NT - 1 - jj) * BT + i) d +
          ∑ c ∈ Finset.range K,
            bg ((NT - 1 - jj) * BT + i) c *
              (loop E BT K NT qg bg w gk dO dv0 dht0 jj).bdh c d := by
  intro j
  induction j with
  | zero => intro _ jj hjj; omega
  | succ j ih =>
      intro hj1 jj hjj i hi d
      rw [loop_succ_eq, step_dv2_eq]
      by_cases hcase : jj = j
      · subst hcase
        rw [if_pos ⟨Nat.le_add_right _ _, by omega⟩]
        have hrow : (NT - 1 - jj) * BT +
            ((NT - 1 - jj) * BT + i - (NT - 1 - jj) * BT) =
            (NT - 1 - jj) * BT + i := by omega
        rw [hrow, loop_dv]
      · have hne : NT - 1 - jj ≠ NT - 1 - j := by omega
        rw [if_neg (mem_chunk_unique BT (NT - 1 - j) (NT - 1 - jj) i hi hne)]
        exact ih (by omega) jj (by omega) i hi d

/-- C10: `chunk_dplr_bwd_dhu` never writes to its input value-gradient `dv` —
after the full chunk loop the threaded `dv` store still equals the original
input at every position; the combined value gradient is written to the freshly
allocated `dv2`, where for every position of every chunk
`dv2 = dv + b_bg @ dS` with `dS` the state gradient of that position's chunk
(the corresponding entry of the returned per-chunk table `dh`); `dv2` is
returned alongside `dh` and the initial-state gradient `dh0`, and the latest
table entry is the externally supplied final-state gradient. -/
theorem chunk_dplr_bwd_dhu_spec (E : ℚ → ℚ) (BT K NT : ℕ)
    (qg bg w gk : ℕ → ℕ → ℚ) (dO dv0 dht0 : ℕ → ℕ → ℚ) :
    (∀ t d : ℕ,
        (loop E BT K NT qg bg w gk dO dv0 dht0 NT).dv t d = dv0 t d) ∧
      (∀ n, n < NT → ∀ i, i < BT → ∀ d : ℕ,
        (chunk_dplr_bwd_dhu E BT K NT qg bg w gk dO dv0 dht0).2.2
            (n * BT + i) d =
          dv0 (n * BT + i) d +
            ∑ c ∈ Finset.range K,
              bg (n * BT + i) c *
                (chunk_dplr_bwd_dhu E BT K NT qg bg w gk dO dv0 dht0).1
                  n c d) ∧
      (0 < NT → ∀ c d : ℕ,
        (chunk_dplr_bwd_dhu E BT K NT qg bg w gk dO dv0 dht0).1 (NT - 1) c d =
          dht0 c d) := by
  refine ⟨?_, ?_, ?_⟩
  · intro t d
    rw [loop_dv]
  · intro n hn i hi d
    have hjj : NT - 1 - (NT - 1 - n) = n := by omega
    have h1 := loop_dv2_val E BT K NT qg bg w gk dO dv0 dht0 NT (le_refl NT)
      (NT - 1 - n) (by omega) i hi d
    rw [hjj] at h1
    have h2 : ∀ c : ℕ,
        (loop E BT K NT qg bg w gk dO dv0 dht0 NT).dh n c d =
          (loop E BT K NT qg bg w gk dO dv0 dht0 (NT - 1 - n)).bdh c d := by
      intro c
      have h3 := loop_dh_eq E BT K NT qg bg w gk dO dv0 dht0 NT (le_refl NT)
        (NT - 1 - n) (by omega) c d
      rwa [hjj] at h3
    show (loop E BT K NT qg bg w gk dO dv0 dht0 NT).dv2 (n * BT + i) d = _
    rw [h1]
    congr 1
    exact Finset.sum_congr rfl
      (fun c _ => congrArg (fun x => bg (n * BT + i) c * x) (h2 c).symm)
  · intro hNT c d
    exact loop_dh_eq E BT K NT qg bg w gk dO dv0 dht0 NT (le_refl NT) 0 hNT c d

/-- Witness for C10 at a concrete instance (`NT = BT = K = 1`, `dht0 = 1`). -/
theorem chunk_dplr_bwd_dhu_spec_witness :
    (chunk_dplr_bwd_dhu (fun _ => 1) 1 1 1 (fun _ _ => 0) (fun _ _ => 0)
        (fun _ _ => 0) (fun _ _ => 0) (fun _ _ => 0) (fun _ _ => 0)
        (fun _ _ => 1)).1 0 0 0 = 1 :=
  (chunk_dplr_bwd_dhu_spec (fun _ => 1) 1 1 1 (fun _ _ => 0) (fun _ _ => 0)
      (fun _ _ => 0) (fun _ _ => 0) (fun _ _ => 0) (fun _ _ => 0)
      (fun _ _ => 1)).2.2 (by decide) 0 0

end ChunkDplrBwd
